import Mathlib

/-!
Verification of the quantization core of `optimum-quanto`
(`src/quanto/tensor/qtensor.py`).

Tensors are embedded as a shape (list of dimension sizes), a row-major flat
list of rational values, a device id and an element-dtype tag.  Floating-point
arithmetic of the host library is modelled as exact rational arithmetic;
`torch.round` is modelled as round-half-to-even, the host's default rounding
mode.
-/

namespace Quanto

/-! ### Multi-dimensional index bookkeeping -/

/-- `idxOk idx shape` holds when `idx` is a valid multi-index for `shape`:
same length and pointwise strictly below the dimension sizes. -/
def idxOk : List ℕ → List ℕ → Bool
  | [], [] => true
  | i :: is, n :: ns => decide (i < n) && idxOk is ns
  | _, _ => false

/-- Row-major flat position of a multi-index within a shape. -/
def flatIndex : List ℕ → List ℕ → ℕ
  | _ :: ns, i :: is => i * ns.prod + flatIndex ns is
  | _, _ => 0

/-- All valid multi-indices of a shape, in row-major order. -/
def natIndices : List ℕ → List (List ℕ)
  | [] => [[]]
  | n :: ns => (List.range n).flatMap fun i => (natIndices ns).map (i :: ·)

theorem idxOk_nil_left {s : List ℕ} (h : idxOk [] s = true) : s = [] := by
  cases s with
  | nil => rfl
  | cons n ns => simp [idxOk] at h

theorem idxOk_cons {i : ℕ} {is s : List ℕ} (h : idxOk (i :: is) s = true) :
    ∃ n ns, s = n :: ns ∧ i < n ∧ idxOk is ns = true := by
  cases s with
  | nil => simp [idxOk] at h
  | cons n ns =>
    have h' : i < n ∧ idxOk is ns = true := by simpa [idxOk] using h
    exact ⟨n, ns, rfl, h'.1, h'.2⟩

theorem bind_length_const {α β : Type} (l : List α) (g : α → List β) (L : ℕ)
    (h : ∀ a ∈ l, (g a).length = L) : (l.flatMap g).length = l.length * L := by
  induction l with
  | nil => simp
  | cons a l ih =>
    have ha : (g a).length = L := h a (by simp)
    have hl : ∀ b ∈ l, (g b).length = L := fun b hb => h b (by simp [hb])
    simp [List.flatMap_cons, ha, ih hl, Nat.succ_mul, Nat.add_comm]

theorem natIndices_length (s : List ℕ) : (natIndices s).length = s.prod := by
  induction s with
  | nil => rfl
  | cons n ns ih =>
    have h : ∀ i ∈ List.range n, ((natIndices ns).map (i :: ·)).length = ns.prod := by
      intro i _
      simp [ih]
    simp [natIndices, bind_length_const _ _ _ h, List.prod_cons]

theorem flatIndex_lt {idx s : List ℕ} (h : idxOk idx s = true) :
    flatIndex s idx < s.prod := by
  induction idx generalizing s with
  | nil =>
    rcases idxOk_nil_left h with rfl
    simp [flatIndex]
  | cons i is ih =>
    rcases idxOk_cons h with ⟨n, ns, rfl, hi, hrest⟩
    have hP := ih hrest
    have h1 : i * ns.prod + flatIndex ns is < (i + 1) * ns.prod := by
      have := hP
      calc i * ns.prod + flatIndex ns is < i * ns.prod + ns.prod := by omega
        _ = (i + 1) * ns.prod := by ring
    have h2 : (i + 1) * ns.prod ≤ n * ns.prod :=
      Nat.mul_le_mul_right _ (by omega)
    calc flatIndex (n :: ns) (i :: is) = i * ns.prod + flatIndex ns is := rfl
      _ < (i + 1) * ns.prod := h1
      _ ≤ n * ns.prod := h2
      _ = (n :: ns).prod := (List.prod_cons).symm

theorem bind_range_getD {α : Type} (n i k L : ℕ) (g : ℕ → List α) (d : α)
    (hlen : ∀ j, (g j).length = L) (hi : i < n) (hk : k < L) :
    ((List.range n).flatMap g).getD (i * L + k) d = (g i).getD k d := by
  induction n with
  | zero => omega
  | succ m ih =>
    rw [List.range_succ, List.flatMap_append]
    by_cases him : i < m
    · have hlt : i * L + k < ((List.range m).flatMap g).length := by
        rw [bind_length_const _ _ L (fun a _ => hlen a)]
        simp only [List.length_range]
        have h1 : i * L + k < (i + 1) * L := by nlinarith
        have h2 : (i + 1) * L ≤ m * L := Nat.mul_le_mul_right _ (by omega)
        omega
      rw [List.getD_append _ _ _ _ hlt]
      exact ih him
    · have hie : i = m := by omega
      subst hie
      have hlen' : ((List.range i).flatMap g).length = i * L := by
        rw [bind_length_const _ _ L (fun a _ => hlen a)]
        simp
      have hge : ((List.range i).flatMap g).length ≤ i * L + k := by omega
      rw [List.getD_append_right _ _ _ _ hge, hlen']
      simp [List.flatMap_cons]

theorem natIndices_getD {idx s : List ℕ} (h : idxOk idx s = true) :
    (natIndices s).getD (flatIndex s idx) [] = idx := by
  induction idx generalizing s with
  | nil =>
    rcases idxOk_nil_left h with rfl
    rfl
  | cons i is ih =>
    rcases idxOk_cons h with ⟨n, ns, rfl, hi, hrest⟩
    have hlen : ∀ j, ((natIndices ns).map (j :: ·)).length = ns.prod := by
      intro j
      simp [natIndices_length]
    have hk : flatIndex ns is < ns.prod := flatIndex_lt hrest
    show ((List.range n).flatMap fun j => (natIndices ns).map (j :: ·)).getD
        (i * ns.prod + flatIndex ns is) [] = i :: is
    rw [bind_range_getD n i (flatIndex ns is) ns.prod _ [] hlen hi hk]
    have hmap : ((natIndices ns).map (i :: ·)).getD (flatIndex ns is) (i :: []) =
        i :: ((natIndices ns).getD (flatIndex ns is) []) :=
      List.getD_map (natIndices ns) [] (i :: ·)
    have hlt : flatIndex ns is < (natIndices ns).length := by
      rw [natIndices_length]; exact hk
    have hd : ((natIndices ns).map (i :: ·)).getD (flatIndex ns is) [] =
        ((natIndices ns).map (i :: ·)).getD (flatIndex ns is) (i :: []) := by
      rcases List.getD_eq_getElem ((natIndices ns).map (i :: ·)) [] (by simpa using hlt) with h1
      rw [h1, List.getD_eq_getElem _ _ (by simpa using hlt)]
    rw [hd, hmap, ih hrest]

/-! ### Dtypes and numeric info -/

/-- Storage element types used by the quantization core.  `int8` is the only
integer storage type; the float tags stand for the host's floating dtypes,
whose arithmetic the embedding models exactly over `ℚ`. -/
inductive Dtype
  | int8
  | float8
  | float16
  | float32
deriving DecidableEq, Repr

/-- Representable range of a storage dtype.
Modelled from the spec: `dtype_info` lives in `src/quanto/tensor/core.py`,
which is absent from the sources; the spec (§4.2) says it resolves the
representable `[min, max]` of the storage type.  The values are the host
library's `iinfo`/`finfo` bounds (all integral, stored as `ℤ`). -/
structure DtypeInfo where
  min : ℤ
  max : ℤ
deriving DecidableEq, Repr

/-- Modelled from the spec: representable bounds per storage dtype
(`dtype_info` of the absent `core.py`).  `float32`'s largest finite value is
`2^128 - 2^104`. -/
def dtype_info : Dtype → DtypeInfo
  | .int8 => ⟨-128, 127⟩
  | .float8 => ⟨-448, 448⟩
  | .float16 => ⟨-65504, 65504⟩
  | .float32 => ⟨-(2 ^ 128 - 2 ^ 104), 2 ^ 128 - 2 ^ 104⟩

theorem dtype_info_max_pos (d : Dtype) : 0 < (dtype_info d).max := by
  cases d <;> norm_num [dtype_info]

theorem dtype_info_min_le_neg_max (d : Dtype) :
    (dtype_info d).min ≤ -(dtype_info d).max := by
  cases d <;> norm_num [dtype_info]

/-- Modelled from the spec: the `qtype` record of the absent
`src/quanto/tensor/qtype.py` — a quantized-type descriptor carrying whether
the target is floating point and its storage dtype (spec §3). -/
structure qtype where
  is_floating_point : Bool
  dtype : Dtype
deriving DecidableEq, Repr

/-- Modelled from the spec: the 8-bit signed integer quantized type. -/
def qint8 : qtype := ⟨false, .int8⟩

/-- Modelled from the spec: an 8-bit floating quantized type. -/
def qfloat8 : qtype := ⟨true, .float8⟩

/-- Rank used for the host library's type promotion: the promoted dtype of a
binary op is the argument dtype of larger rank. -/
def Dtype.rank : Dtype → ℕ
  | .int8 => 0
  | .float8 => 1
  | .float16 => 2
  | .float32 => 3

def promoteDtype (a b : Dtype) : Dtype := if a.rank < b.rank then b else a

/-! ### The tensor embedding -/

/-- A tensor: shape, row-major flat values, device id and element dtype. -/
structure Tensor where
  shape : List ℕ
  vals : List ℚ
  device : ℕ
  dtype : Dtype
deriving DecidableEq, Repr

/-- `t.ndim`, the host's `Tensor.ndim`. -/
def Tensor.ndim (t : Tensor) : ℕ := t.shape.length

/-- Well-formedness: the flat value list covers the shape exactly. -/
def Tensor.wf (t : Tensor) : Prop := t.vals.length = t.shape.prod

instance (t : Tensor) : Decidable t.wf := by
  unfold Tensor.wf
  infer_instance

/-- Element at a multi-index (row-major, default `0` out of range). -/
def Tensor.el (t : Tensor) (idx : List ℕ) : ℚ :=
  t.vals.getD (flatIndex t.shape idx) 0

/-- Build a tensor of the given shape from an index-wise description. -/
def Tensor.ofFn (s : List ℕ) (dev : ℕ) (dt : Dtype) (f : List ℕ → ℚ) : Tensor :=
  ⟨s, (natIndices s).map f, dev, dt⟩

theorem Tensor.ofFn_wf (s : List ℕ) (dev : ℕ) (dt : Dtype) (f : List ℕ → ℚ) :
    (Tensor.ofFn s dev dt f).wf := by
  simp [Tensor.ofFn, Tensor.wf, natIndices_length]

theorem Tensor.el_ofFn {s idx : List ℕ} (dev : ℕ) (dt : Dtype) (f : List ℕ → ℚ)
    (h : idxOk idx s = true) : (Tensor.ofFn s dev dt f).el idx = f idx := by
  have hlt : flatIndex s idx < (natIndices s).length := by
    rw [natIndices_length]
    exact flatIndex_lt h
  show ((natIndices s).map f).getD (flatIndex s idx) 0 = f idx
  have h0 : ((natIndices s).map f).getD (flatIndex s idx) 0 =
      ((natIndices s).map f).getD (flatIndex s idx) (f []) := by
    rw [List.getD_eq_getElem _ _ (by simpa using hlt),
      List.getD_eq_getElem _ _ (by simpa using hlt)]
  rw [h0, List.getD_map (natIndices s) [] f, natIndices_getD h]

/-! ### Elementwise host operations -/

/-- Right-aligned broadcast of two shapes (each pair of aligned dims must be
equal or contain a `1` for the host op to succeed; on such pairs this picks
the non-`1` size). -/
def broadcastShape (s1 s2 : List ℕ) : List ℕ :=
  let r := Nat.max s1.length s2.length
  let p1 := List.replicate (r - s1.length) 1 ++ s1
  let p2 := List.replicate (r - s2.length) 1 ++ s2
  List.zipWith (fun a b => if a = 1 then b else a) p1 p2

/-- Shapes broadcastable in the host's sense: after right alignment every
pair of dims is equal or one of them is `1`. -/
def bcastOk (s1 s2 : List ℕ) : Prop :=
  let r := Nat.max s1.length s2.length
  List.Forall₂ (fun a b => a = b ∨ a = 1 ∨ b = 1)
    (List.replicate (r - s1.length) 1 ++ s1) (List.replicate (r - s2.length) 1 ++ s2)

/-- The source index of `t` that a broadcast output index reads: drop the
leading broadcast dimensions, then clamp coordinates of size-1 dims to 0. -/
def bcastIdx (t : Tensor) (idx : List ℕ) : List ℕ :=
  List.zipWith (fun i n => if n = 1 then 0 else i) (idx.drop (idx.length - t.ndim)) t.shape

/-- The element of `t` read at a broadcast output index. -/
def Tensor.bel (t : Tensor) (idx : List ℕ) : ℚ := t.el (bcastIdx t idx)

/-- Elementwise binary host op with broadcasting; result dtype follows the
host's type promotion and the device is the first argument's. -/
def tensorBin (f : ℚ → ℚ → ℚ) (a b : Tensor) : Tensor :=
  Tensor.ofFn (broadcastShape a.shape b.shape) a.device (promoteDtype a.dtype b.dtype)
    (fun idx => f (a.bel idx) (b.bel idx))

/-- `a / b` on tensors. -/
def tensorDiv (a b : Tensor) : Tensor := tensorBin (· / ·) a b

/-- `a * b` on tensors. -/
def tensorMul (a b : Tensor) : Tensor := tensorBin (· * ·) a b

/-- Round half to even, the host's default rounding mode (`torch.round`). -/
def roundHalfEven (x : ℚ) : ℤ :=
  let f := ⌊x⌋
  let r := x - f
  if r < 1 / 2 then f
  else if 1 / 2 < r then f + 1
  else if f % 2 = 0 then f else f + 1

/-- `torch.round` on tensors. -/
def tensorRound (t : Tensor) : Tensor :=
  { t with vals := t.vals.map (fun v => ((roundHalfEven v : ℤ) : ℚ)) }

/-- Scalar clamp into `[lo, hi]`. -/
def clampQ (lo hi v : ℚ) : ℚ := min (max v lo) hi

/-- `torch.clamp(t, min := lo, max := hi)` on tensors. -/
def tensorClamp (lo hi : ℚ) (t : Tensor) : Tensor :=
  { t with vals := t.vals.map (clampQ lo hi) }

/-- Truncation toward zero, the host's float→integer conversion. -/
def truncQ (x : ℚ) : ℤ := if 0 ≤ x then ⌊x⌋ else ⌈x⌉

/-- Conversion of a scalar to a storage dtype: for `int8`, truncate toward
zero and wrap into 8 signed bits; the float tags keep the exact value
(the embedding models float arithmetic exactly). -/
def castVal : Dtype → ℚ → ℚ
  | .int8, v => (((truncQ v + 128) % 256 - 128 : ℤ) : ℚ)
  | _, v => v

/-- `t.to(dtype)` on tensors. -/
def castTo (d : Dtype) (t : Tensor) : Tensor :=
  { t with dtype := d, vals := t.vals.map (castVal d) }

/-- `torch.squeeze`: remove every dimension of size 1 (row-major flat data is
unchanged). -/
def tsqueeze (t : Tensor) : Tensor :=
  { t with shape := t.shape.filter (fun n => n ≠ 1) }

/-! ### Scale computation -/

/-- Modelled from the spec: the epsilon floor that keeps the absmax scale
away from zero (spec §4.1; `absmax_scale` lives in the absent
`src/quanto/tensor/core.py`). -/
def scale_eps : ℚ := 1 / 2 ^ 24

/-- Maximum absolute value of a list of scalars (`max(abs(base))`). -/
def absmaxList (l : List ℚ) : ℚ := l.foldr (fun v a => max |v| a) 0

/-- Modelled from the spec: `absmax_scale` of the absent
`src/quanto/tensor/core.py`, scalar (axis = None) case as used by
`Quantizer.forward`: a 0-rank scale `max(|base|) / info.max`, floored by
`scale_eps`, in `base`'s dtype and on `base`'s device (spec §4.1). -/
def absmax_scale (base : Tensor) (qt : qtype) : Tensor :=
  let info := dtype_info qt.dtype
  let s := max (absmaxList base.vals / (info.max : ℚ)) scale_eps
  ⟨[], [s], base.device, base.dtype⟩

/-! ### The QTensor entity -/

/-- The fields a `QTensor` stores: the quantized type tag, the resolved axis
(`none`, a nonnegative index, or the last-axis sentinel `-1`), the quantized
data and the scale. -/
structure QTensor where
  _qtype : qtype
  _axis : Option ℤ
  _data : Tensor
  _scale : Tensor
deriving DecidableEq, Repr

/-- The axis-resolution loop of `QTensor.__init__`:
`for i in range(scale.ndim): if dims[i] != 1: self._axis = i`
(the last index with a non-unit dimension, or `none`). -/
def lastNonUnit (dims : List ℕ) : Option ℕ :=
  (List.range dims.length).foldl
    (fun a i => if dims.getD i 1 ≠ 1 then some i else a) none

/-- `QTensor.__new__` + `QTensor.__init__`: the device assertion, the scale
validation, axis resolution, scalar collapse and last-axis normalization.
Raised `AssertionError`/`ValueError`s are `Except.error`s. -/
def QTensor.make (qt : qtype) (data scale : Tensor) : Except String QTensor :=
  if data.device ≠ scale.device then
    .error "assert data.device == scale.device"
  else if 0 < scale.ndim then
    if 1 < (tsqueeze scale).ndim then
      .error "QTensor cannot be quantized along multiple axis."
    else if scale.ndim ≠ data.ndim then
      .error "The QTensor scale must be broadcastable to the base (Tip: try to add missing dims of length zero)."
    else
      match lastNonUnit scale.shape with
      | none => .ok ⟨qt, none, data, tsqueeze scale⟩
      | some i =>
        if i = scale.ndim - 1 then .ok ⟨qt, some (-1), data, scale⟩
        else .ok ⟨qt, some (i : ℤ), data, scale⟩
  else
    .ok ⟨qt, none, data, scale⟩

/-- Read-only `axis` property. -/
def QTensor.axis (q : QTensor) : Option ℤ := q._axis

/-! ### Quantizer -/

/-- The tail of `Quantizer.forward` once the scale is resolved: divide,
round unless the qtype is floating point, clamp to `dtype_info` bounds, cast
to the storage dtype, and construct the `QTensor` from
`(qtype, data, scale)`. -/
def quantizeCore (qt : qtype) (base scale : Tensor) : Except String QTensor :=
  let info := dtype_info qt.dtype
  let data := tensorDiv base scale
  let data := if qt.is_floating_point = false then tensorRound data else data
  let data := castTo qt.dtype (tensorClamp ((info.min : ℚ)) ((info.max : ℚ)) data)
  QTensor.make qt data scale

/-- `Quantizer.forward` (the `ctx` parameter is unused by the source and
omitted): resolve the scale (absmax when unspecified), validate an explicit
non-scalar scale, then quantize. -/
def Quantizer.forward (base : Tensor) (qt : qtype) (scale : Option Tensor) :
    Except String QTensor :=
  match scale with
  | none => quantizeCore qt base (absmax_scale base qt)
  | some scale =>
    if 0 < scale.ndim then
      if 1 < (tsqueeze scale).ndim then
        .error "Quantizing along multiple axis is not supported"
      else if scale.ndim ≠ base.ndim then
        .error "When quantizing per-axis, the scale must be broadcastable to the base (Tip: try to add missing dims of length zero)."
      else quantizeCore qt base scale
    else quantizeCore qt base scale

/-- `Quantizer.backward`: the upstream gradient is returned unchanged for
`base`, with `None` gradients for the `qtype` and `scale` parameters. -/
def Quantizer.backward (gO : Tensor) : Tensor × Option Tensor × Option Tensor :=
  (gO, none, none)

/-! ### Dequantizer -/

/-- `Dequantizer.forward`: for a floating-point qtype, upcast the data to
the scale dtype explicitly before multiplying; otherwise multiply the scale
by the data directly. -/
def Dequantizer.forward (t : QTensor) : Tensor :=
  if t._qtype.is_floating_point then
    tensorMul t._scale (castTo t._scale.dtype t._data)
  else
    tensorMul t._scale t._data

/-- `Dequantizer.backward`: the upstream gradient is returned unchanged. -/
def Dequantizer.backward (gO : Tensor) : Tensor := gO

/-- `QTensor.quantize`. -/
def QTensor.quantize (base : Tensor) (qt : qtype) (scale : Option Tensor) :
    Except String QTensor :=
  Quantizer.forward base qt scale

/-- `QTensor.dequantize`. -/
def QTensor.dequantize (q : QTensor) : Tensor := Dequantizer.forward q

/-! ### Flatten / unflatten -/

/-- `QTensor.__tensor_flatten__`: the source names the two inner tensor
attributes `["_data", "_scale"]` and the single metadata entry
`{"qtype": qtype}`; the host materializes the name-to-tensor mapping, which
the embedding returns directly. -/
def QTensor.tensor_flatten (q : QTensor) :
    List (String × Tensor) × List (String × Quanto.qtype) :=
  ([("_data", q._data), ("_scale", q._scale)], [("qtype", q._qtype)])

/-- `QTensor.__tensor_unflatten__`: assert exactly two inner tensors and one
metadata entry, look up `_data`, `_scale` and `qtype`, and rebuild the
`QTensor`; `outer_size` and `outer_stride` are accepted but unused, exactly
as in the source. -/
def QTensor.tensor_unflatten (inner : List (String × Tensor))
    (meta : List (String × Quanto.qtype)) (outer_size outer_stride : List ℕ) :
    Except String QTensor :=
  if inner.length ≠ 2 then .error "assert len(inner_tensors) == 2"
  else if meta.length ≠ 1 then .error "assert len(meta) == 1"
  else
    match inner.lookup "_data", inner.lookup "_scale", meta.lookup "qtype" with
    | some data, some scale, some qt => QTensor.make qt data scale
    | _, _, _ => .error "KeyError"

/-- Read-only `qtype` property (declared after the other `QTensor` members
so that the bare name `qtype` keeps denoting the type in their
signatures). -/
def QTensor.qtype (q : QTensor) : Quanto.qtype := q._qtype

/-! ### qfallback -/

/-- A python argument tree as fed to `qfallback`: `QTensor` leaves, plain
tensor leaves, opaque non-tensor leaves, and nested containers. -/
inductive Arg
  | q (t : QTensor)
  | t (x : Tensor)
  | other (n : ℕ)
  | list (xs : List Arg)

mutual

/-- `pytree.tree_map_only(QTensor, f, ·)`: apply `f` to every `QTensor`
leaf, leaving every other node unchanged. -/
def mapQTensors (f : QTensor → Tensor) : Arg → Arg
  | .q t => .t (f t)
  | .t x => .t x
  | .other n => .other n
  | .list xs => .list (mapQTensorsList f xs)

/-- `mapQTensors` over the children of a container node. -/
def mapQTensorsList (f : QTensor → Tensor) : List Arg → List Arg
  | [] => []
  | a :: as => mapQTensors f a :: mapQTensorsList f as

end

/-- `qfallback(callable, *args, **kwargs)`: dequantize every `QTensor`
appearing in the positional and keyword arguments, then invoke the callable
on the transformed arguments. -/
def qfallback {R : Type} (callable : List Arg → List (String × Arg) → R)
    (args : List Arg) (kwargs : List (String × Arg)) : R :=
  callable (args.map (mapQTensors QTensor.dequantize))
    (kwargs.map (fun p => (p.1, mapQTensors QTensor.dequantize p.2)))

/-! ### Scalar lemmas -/

theorem roundHalfEven_abs_le (x : ℚ) : |((roundHalfEven x : ℤ) : ℚ) - x| ≤ 1 / 2 := by
  have h0 : (⌊x⌋ : ℚ) ≤ x := Int.floor_le x
  have h1 : x < ⌊x⌋ + 1 := Int.lt_floor_add_one x
  simp only [roundHalfEven]
  split_ifs with ha hb hc <;> rw [abs_le] <;> push_cast <;> constructor <;> linarith

theorem truncQ_intCast (z : ℤ) : truncQ (z : ℚ) = z := by
  unfold truncQ
  split_ifs <;> simp

theorem castVal_intCast (d : Dtype) (z : ℤ) (h1 : (dtype_info d).min ≤ z)
    (h2 : z ≤ (dtype_info d).max) : castVal d (z : ℚ) = (z : ℚ) := by
  cases d with
  | int8 =>
    simp only [castVal, truncQ_intCast]
    have hmin : (-128 : ℤ) ≤ z := h1
    have hmax : z ≤ (127 : ℤ) := h2
    have : (z + 128) % 256 - 128 = z := by omega
    rw [this]
  | float8 => rfl
  | float16 => rfl
  | float32 => rfl

theorem clampQ_of_mem (lo hi v : ℚ) (h1 : lo ≤ v) (h2 : v ≤ hi) :
    clampQ lo hi v = v := by
  simp [clampQ, max_eq_left h1, min_eq_left h2]

theorem absmaxList_nonneg (l : List ℚ) : 0 ≤ absmaxList l := by
  induction l with
  | nil => simp [absmaxList]
  | cons v l ih => exact le_trans ih (le_max_right _ _)

theorem abs_le_absmaxList {l : List ℚ} {v : ℚ} (h : v ∈ l) : |v| ≤ absmaxList l := by
  induction l with
  | nil => simp at h
  | cons a l ih =>
    rcases List.mem_cons.mp h with rfl | hm
    · exact le_max_left _ _
    · exact le_trans (ih hm) (le_max_right _ _)

/-! ### Element-access lemmas for the host ops -/

theorem idxOk_length {idx s : List ℕ} (h : idxOk idx s = true) :
    idx.length = s.length := by
  induction idx generalizing s with
  | nil => rcases idxOk_nil_left h with rfl; rfl
  | cons i is ih =>
    rcases idxOk_cons h with ⟨n, ns, rfl, _, hrest⟩
    simp [ih hrest]

theorem getD_map_pos {α β : Type} (f : α → β) (l : List α) (n : ℕ) (da : α) (db : β)
    (h : n < l.length) : (l.map f).getD n db = f (l.getD n da) := by
  rw [List.getD_eq_getElem _ _ (by simpa using h), List.getD_eq_getElem _ _ h,
    List.getElem_map]

theorem el_mapVals (f : ℚ → ℚ) {t : Tensor} {idx : List ℕ}
    (h : idxOk idx t.shape = true) (hwf : t.wf) :
    ({ t with vals := t.vals.map f } : Tensor).el idx = f (t.el idx) := by
  have hlt : flatIndex t.shape idx < t.vals.length := by
    rw [hwf]
    exact flatIndex_lt h
  show (t.vals.map f).getD (flatIndex t.shape idx) 0 = f (t.el idx)
  exact getD_map_pos f t.vals _ 0 0 hlt

theorem wf_mapVals (f : ℚ → ℚ) {t : Tensor} (hwf : t.wf) :
    ({ t with vals := t.vals.map f } : Tensor).wf := by
  simpa [Tensor.wf] using hwf

theorem el_tensorRound {t : Tensor} {idx : List ℕ}
    (h : idxOk idx t.shape = true) (hwf : t.wf) :
    (tensorRound t).el idx = ((roundHalfEven (t.el idx) : ℤ) : ℚ) :=
  el_mapVals _ h hwf

theorem el_tensorClamp (lo hi : ℚ) {t : Tensor} {idx : List ℕ}
    (h : idxOk idx t.shape = true) (hwf : t.wf) :
    (tensorClamp lo hi t).el idx = clampQ lo hi (t.el idx) :=
  el_mapVals _ h hwf

theorem el_castTo (d : Dtype) {t : Tensor} {idx : List ℕ}
    (h : idxOk idx t.shape = true) (hwf : t.wf) :
    (castTo d t).el idx = castVal d (t.el idx) :=
  el_mapVals _ h hwf

theorem el_tensorBin (f : ℚ → ℚ → ℚ) (a b : Tensor) {idx : List ℕ}
    (h : idxOk idx (broadcastShape a.shape b.shape) = true) :
    (tensorBin f a b).el idx = f (a.bel idx) (b.bel idx) :=
  Tensor.el_ofFn _ _ _ h

theorem el_tensorDiv (a b : Tensor) {idx : List ℕ}
    (h : idxOk idx (broadcastShape a.shape b.shape) = true) :
    (tensorDiv a b).el idx = a.bel idx / b.bel idx :=
  el_tensorBin _ _ _ h

theorem el_tensorMul (a b : Tensor) {idx : List ℕ}
    (h : idxOk idx (broadcastShape a.shape b.shape) = true) :
    (tensorMul a b).el idx = a.bel idx * b.bel idx :=
  el_tensorBin _ _ _ h

theorem zipWith_one_right (s : List ℕ) :
    List.zipWith (fun a b => if a = 1 then b else a) s (List.replicate s.length 1) = s := by
  induction s with
  | nil => rfl
  | cons a s ih =>
    by_cases ha : a = 1 <;> simp [List.replicate, ha, ih]

theorem zipWith_one_left (s : List ℕ) :
    List.zipWith (fun a b => if a = 1 then b else a) (List.replicate s.length 1) s = s := by
  induction s with
  | nil => rfl
  | cons a s ih => simp [List.replicate, ih]

theorem broadcastShape_nil_right (s : List ℕ) : broadcastShape s [] = s := by
  have h : Nat.max s.length 0 = s.length := Nat.max_zero s.length
  simp only [broadcastShape, List.length_nil, h, Nat.sub_self, Nat.sub_zero,
    List.replicate, List.nil_append, List.append_nil]
  exact zipWith_one_right s

theorem broadcastShape_nil_left (s : List ℕ) : broadcastShape [] s = s := by
  have h : Nat.max 0 s.length = s.length := Nat.zero_max s.length
  simp only [broadcastShape, List.length_nil, h, Nat.sub_self, Nat.sub_zero,
    List.replicate, List.nil_append, List.append_nil]
  exact zipWith_one_left s

theorem clipIdx_self {idx s : List ℕ} (h : idxOk idx s = true) :
    List.zipWith (fun i n => if n = 1 then 0 else i) idx s = idx := by
  induction idx generalizing s with
  | nil => rcases idxOk_nil_left h with rfl; rfl
  | cons i is ih =>
    rcases idxOk_cons h with ⟨n, ns, rfl, hi, hrest⟩
    by_cases hn : n = 1
    · subst hn
      have : i = 0 := by omega
      subst this
      simp [ih hrest]
    · simp [hn, ih hrest]

theorem bcastIdx_self {t : Tensor} {idx : List ℕ} (h : idxOk idx t.shape = true) :
    bcastIdx t idx = idx := by
  unfold bcastIdx
  rw [idxOk_length h]
  show List.zipWith _ (idx.drop (t.ndim - t.ndim)) t.shape = idx
  rw [Nat.sub_self, List.drop_zero]
  exact clipIdx_self h

theorem bel_self {t : Tensor} {idx : List ℕ} (h : idxOk idx t.shape = true) :
    t.bel idx = t.el idx := by
  unfold Tensor.bel
  rw [bcastIdx_self h]

theorem bel_scalar {t : Tensor} (hs : t.shape = []) (idx : List ℕ) :
    t.bel idx = t.vals.getD 0 0 := by
  unfold Tensor.bel bcastIdx Tensor.el
  rw [hs]
  simp [flatIndex]

/-! ### Analysis of the axis-resolution loop -/

/-- `lastNonUnit` truncated to the first `k` loop iterations. -/
def lnuAux (dims : List ℕ) (k : ℕ) : Option ℕ :=
  (List.range k).foldl (fun a i => if dims.getD i 1 ≠ 1 then some i else a) none

theorem lastNonUnit_eq_aux (dims : List ℕ) : lastNonUnit dims = lnuAux dims dims.length := rfl

theorem lnuAux_succ (dims : List ℕ) (k : ℕ) :
    lnuAux dims (k + 1) = if dims.getD k 1 ≠ 1 then some k else lnuAux dims k := by
  unfold lnuAux
  rw [List.range_succ, List.foldl_append]
  rfl

theorem lnuAux_none {dims : List ℕ} {k : ℕ} (h : lnuAux dims k = none) :
    ∀ i < k, dims.getD i 1 = 1 := by
  induction k with
  | zero => omega
  | succ m ih =>
    rw [lnuAux_succ] at h
    by_cases hm : dims.getD m 1 ≠ 1
    · rw [if_pos hm] at h
      exact absurd h (by simp)
    · rw [if_neg hm] at h
      intro i hi
      rcases Nat.lt_succ_iff_lt_or_eq.mp hi with hlt | rfl
      · exact ih h i hlt
      · omega

theorem lnuAux_none_of (dims : List ℕ) (k : ℕ) (h : ∀ i < k, dims.getD i 1 = 1) :
    lnuAux dims k = none := by
  induction k with
  | zero => rfl
  | succ m ih =>
    rw [lnuAux_succ, if_neg (not_not_intro (h m (Nat.lt_succ_self m)))]
    exact ih fun i hi => h i (by omega)

theorem lnuAux_some {dims : List ℕ} {k i : ℕ} (h : lnuAux dims k = some i) :
    i < k ∧ dims.getD i 1 ≠ 1 := by
  induction k with
  | zero => exact absurd h (by simp [lnuAux])
  | succ m ih =>
    rw [lnuAux_succ] at h
    by_cases hm : dims.getD m 1 ≠ 1
    · rw [if_pos hm] at h
      have : i = m := by simpa using h.symm
      subst this
      exact ⟨by omega, hm⟩
    · rw [if_neg hm] at h
      have := ih h
      exact ⟨by omega, this.2⟩

theorem lnuAux_unique {dims : List ℕ} {k i : ℕ} (hik : i < k)
    (hne : dims.getD i 1 ≠ 1) (huniq : ∀ j < k, dims.getD j 1 ≠ 1 → j = i) :
    lnuAux dims k = some i := by
  induction k with
  | zero => omega
  | succ m ih =>
    rw [lnuAux_succ]
    by_cases him : i = m
    · subst him
      rw [if_pos hne]
    · have hilt : i < m := by omega
      have hm : ¬dims.getD m 1 ≠ 1 := by
        intro hm
        exact him (huniq m (by omega) hm).symm
      rw [if_neg hm]
      exact ih hilt fun j hj hne' => huniq j (by omega) hne'

theorem all_one_getD {dims : List ℕ} (h : ∀ i < dims.length, dims.getD i 1 = 1) :
    ∀ x ∈ dims, x = 1 := by
  intro x hx
  rcases List.getElem_of_mem hx with ⟨i, hi, rfl⟩
  have := h i hi
  rwa [List.getD_eq_getElem _ _ hi] at this

theorem getD_one_of_all {dims : List ℕ} (h : ∀ x ∈ dims, x = 1) :
    ∀ i < dims.length, dims.getD i 1 = 1 := by
  intro i hi
  rw [List.getD_eq_getElem _ _ hi]
  exact h _ (List.getElem_mem hi)

theorem filter_ne_one_nil {dims : List ℕ} (h : ∀ x ∈ dims, x = 1) :
    dims.filter (fun n => n ≠ 1) = [] := by
  induction dims with
  | nil => rfl
  | cons a l ih =>
    have ha : a = 1 := h a (by simp)
    subst ha
    simp only [List.filter]
    have : ∀ x ∈ l, x = 1 := fun x hx => h x (by simp [hx])
    simpa using ih this

/-! ### Characterization of `QTensor.make` -/

theorem make_ok_iff (qt : qtype) (data scale : Tensor) (q : QTensor) :
    QTensor.make qt data scale = .ok q ↔
      data.device = scale.device ∧
      ((scale.ndim = 0 ∧ q = ⟨qt, none, data, scale⟩) ∨
        (0 < scale.ndim ∧ (tsqueeze scale).ndim ≤ 1 ∧ scale.ndim = data.ndim ∧
          ((lastNonUnit scale.shape = none ∧ q = ⟨qt, none, data, tsqueeze scale⟩) ∨
            (∃ i, lastNonUnit scale.shape = some i ∧
              ((i = scale.ndim - 1 ∧ q = ⟨qt, some (-1), data, scale⟩) ∨
                (i ≠ scale.ndim - 1 ∧ q = ⟨qt, some (i : ℤ), data, scale⟩)))))) := by
  unfold QTensor.make
  by_cases hdev : data.device = scale.device
  · rw [if_neg (by simp [hdev])]
    by_cases hnd : 0 < scale.ndim
    · rw [if_pos hnd]
      have hne0 : ¬scale.ndim = 0 := by omega
      by_cases hsq : 1 < (tsqueeze scale).ndim
      · rw [if_pos hsq]
        have hsq' : ¬(tsqueeze scale).ndim ≤ 1 := by omega
        simp [hdev, hne0, hsq']
      · rw [if_neg hsq]
        have hsq' : (tsqueeze scale).ndim ≤ 1 := by omega
        by_cases hbr : scale.ndim ≠ data.ndim
        · rw [if_pos hbr]
          simp [hdev, hne0, hbr]
        · rw [if_neg hbr]
          push_neg at hbr
          have hd0 : ¬(0 = data.ndim) := by omega
          have hdpos : 0 < data.ndim := by omega
          cases hlnu : lastNonUnit scale.shape with
          | none =>
            dsimp only
            simp [hdev, hnd, hne0, hsq', hbr, hd0, hdpos, eq_comm]
          | some i =>
            dsimp only
            by_cases hi : i = scale.ndim - 1
            · rw [if_pos hi]
              have hi' : i = data.ndim - 1 := by omega
              simp [hdev, hnd, hne0, hsq', hbr, hi', hd0, hdpos, eq_comm]
            · rw [if_neg hi]
              have hi' : ¬i = data.ndim - 1 := by omega
              simp [hdev, hnd, hne0, hsq', hbr, hi', hd0, hdpos, eq_comm]
    · rw [if_neg hnd]
      have h0 : scale.ndim = 0 := by omega
      simp [hdev, h0, eq_comm]
  · rw [if_pos (by simp [hdev])]
    simp [hdev]

theorem make_idem {qt : qtype} {data scale : Tensor} {q : QTensor}
    (h : QTensor.make qt data scale = .ok q) :
    QTensor.make q._qtype q._data q._scale = .ok q := by
  rw [make_ok_iff] at h
  obtain ⟨hdev, hc⟩ := h
  rcases hc with ⟨h0, rfl⟩ | ⟨hnd, hsq, hbr, hc⟩
  · rw [make_ok_iff]
    exact ⟨hdev, Or.inl ⟨h0, rfl⟩⟩
  · rcases hc with ⟨hlnu, rfl⟩ | ⟨i, hlnu, hc⟩
    · rw [make_ok_iff]
      rw [lastNonUnit_eq_aux] at hlnu
      have hall : ∀ x ∈ scale.shape, x = 1 := by
        apply all_one_getD
        intro i hi
        exact lnuAux_none hlnu i hi
      have hnil : (tsqueeze scale).ndim = 0 := by
        show (scale.shape.filter (fun n => n ≠ 1)).length = 0
        rw [filter_ne_one_nil hall]
        rfl
      exact ⟨hdev, Or.inl ⟨hnil, rfl⟩⟩
    · rcases hc with ⟨hi, rfl⟩ | ⟨hi, rfl⟩
      · rw [make_ok_iff]
        exact ⟨hdev, Or.inr ⟨hnd, hsq, hbr, Or.inr ⟨i, hlnu, Or.inl ⟨hi, rfl⟩⟩⟩⟩
      · rw [make_ok_iff]
        exact ⟨hdev, Or.inr ⟨hnd, hsq, hbr, Or.inr ⟨i, hlnu, Or.inr ⟨hi, rfl⟩⟩⟩⟩

/-- With an unspecified scale, `Quantizer.forward` always succeeds and
returns the quantized data together with the scalar absmax scale. -/
theorem forward_none (t : Tensor) (qt : qtype) :
    Quantizer.forward t qt none =
      .ok ⟨qt, none,
        castTo qt.dtype (tensorClamp ((dtype_info qt.dtype).min : ℚ)
          ((dtype_info qt.dtype).max : ℚ)
          (if qt.is_floating_point = false then tensorRound (tensorDiv t (absmax_scale t qt))
           else tensorDiv t (absmax_scale t qt))),
        absmax_scale t qt⟩ := by
  show quantizeCore qt t (absmax_scale t qt) = _
  unfold quantizeCore
  rw [make_ok_iff]
  refine ⟨?_, Or.inl ⟨rfl, rfl⟩⟩
  show (if qt.is_floating_point = false then tensorRound (tensorDiv t (absmax_scale t qt))
      else tensorDiv t (absmax_scale t qt)).device = (absmax_scale t qt).device
  split <;> rfl

/-- Elementwise description of the quantized data tensor built by
`quantizeCore`. -/
theorem el_quantizedData (qt : qtype) (lo hi : ℚ) (base scale : Tensor) {idx : List ℕ}
    (hidx : idxOk idx (broadcastShape base.shape scale.shape) = true) :
    (castTo qt.dtype (tensorClamp lo hi
        (if qt.is_floating_point = false then tensorRound (tensorDiv base scale)
         else tensorDiv base scale))).el idx =
      castVal qt.dtype (clampQ lo hi
        (if qt.is_floating_point = false
         then ((roundHalfEven (base.bel idx / scale.bel idx) : ℤ) : ℚ)
         else base.bel idx / scale.bel idx)) := by
  have hwf0 : (tensorDiv base scale).wf := Tensor.ofFn_wf _ _ _ _
  by_cases hc : qt.is_floating_point = false
  · rw [if_pos hc, if_pos hc]
    have hwf1 : (tensorRound (tensorDiv base scale)).wf := wf_mapVals _ hwf0
    have hwf2 : (tensorClamp lo hi (tensorRound (tensorDiv base scale))).wf :=
      wf_mapVals _ hwf1
    rw [el_castTo _ hidx hwf2, el_tensorClamp _ _ hidx hwf1, el_tensorRound hidx hwf0,
      el_tensorDiv _ _ hidx]
  · rw [if_neg hc, if_neg hc]
    have hwf2 : (tensorClamp lo hi (tensorDiv base scale)).wf := wf_mapVals _ hwf0
    rw [el_castTo _ hidx hwf2, el_tensorClamp _ _ hidx hwf0, el_tensorDiv _ _ hidx]

/-- The scalar core of the round-trip bound: dividing by the (floored)
absmax scale, rounding half-to-even, clamping to the dtype bounds and
casting loses at most half a scale step. -/
theorem quantize_err_core (d : Dtype) (x A e : ℚ) (hA : |x| ≤ A) (he : 0 < e) :
    |max (A / ((dtype_info d).max : ℚ)) e *
        castVal d (clampQ ((dtype_info d).min : ℚ) ((dtype_info d).max : ℚ)
          ((roundHalfEven (x / max (A / ((dtype_info d).max : ℚ)) e) : ℤ) : ℚ)) - x| ≤
      max (A / ((dtype_info d).max : ℚ)) e / 2 := by
  set m : ℚ := ((dtype_info d).max : ℚ) with hmdef
  set s : ℚ := max (A / m) e with hsdef
  have hm : (0 : ℚ) < m := by
    rw [hmdef]
    exact_mod_cast dtype_info_max_pos d
  have hs : 0 < s := lt_of_lt_of_le he (le_max_right _ _)
  have hA0 : 0 ≤ A := le_trans (abs_nonneg x) hA
  have hAsm : A ≤ s * m := by
    have h1 : A / m ≤ s := le_max_left _ _
    have h2 : A / m * m ≤ s * m := by nlinarith
    calc A = A / m * m := by field_simp
      _ ≤ s * m := h2
  have hxs : |x / s| ≤ m := by
    rw [abs_div, abs_of_pos hs, div_le_iff hs]
    calc |x| ≤ A := hA
      _ ≤ s * m := hAsm
      _ = m * s := by ring
  set z := roundHalfEven (x / s) with hzdef
  have hzr : |((z : ℤ) : ℚ) - x / s| ≤ 1 / 2 := roundHalfEven_abs_le _
  have hxs' := abs_le.mp hxs
  have hzr' := abs_le.mp hzr
  have hzub : (z : ℚ) ≤ m := by
    by_contra hcon
    push_neg at hcon
    rw [hmdef] at hcon
    have h1 : (dtype_info d).max < z := by exact_mod_cast hcon
    have h2 : (dtype_info d).max + 1 ≤ z := h1
    have h3 : m + 1 ≤ (z : ℚ) := by
      rw [hmdef]
      exact_mod_cast h2
    linarith
  have hzlb : -m ≤ (z : ℚ) := by
    by_contra hcon
    push_neg at hcon
    rw [hmdef] at hcon
    have h1 : z < -(dtype_info d).max := by exact_mod_cast hcon
    have h2 : z + 1 ≤ -(dtype_info d).max := h1
    have h3 : (z : ℚ) + 1 ≤ -m := by
      rw [hmdef]
      exact_mod_cast h2
    linarith
  have hlom : ((dtype_info d).min : ℚ) ≤ -m := by
    rw [hmdef]
    exact_mod_cast dtype_info_min_le_neg_max d
  have hclamp : clampQ ((dtype_info d).min : ℚ) m ((z : ℚ)) = (z : ℚ) :=
    clampQ_of_mem _ _ _ (le_trans hlom hzlb) hzub
  have hzlbZ : (dtype_info d).min ≤ z := by
    have : ((dtype_info d).min : ℚ) ≤ (z : ℚ) := le_trans hlom hzlb
    exact_mod_cast this
  have hzubZ : z ≤ (dtype_info d).max := by
    have : (z : ℚ) ≤ m := hzub
    rw [hmdef] at this
    exact_mod_cast this
  have hcast : castVal d ((z : ℤ) : ℚ) = ((z : ℤ) : ℚ) := castVal_intCast d z hzlbZ hzubZ
  rw [hclamp, hcast]
  have hfact : s * (z : ℚ) - x = s * ((z : ℚ) - x / s) := by
    field_simp
    ring
  rw [hfact, abs_mul, abs_of_pos hs]
  calc s * |((z : ℤ) : ℚ) - x / s| ≤ s * (1 / 2) := by nlinarith [abs_nonneg (((z : ℤ) : ℚ) - x / s)]
    _ = s / 2 := by ring

theorem dequantizer_forward_fp {q : QTensor} (h : q._qtype.is_floating_point = true) :
    Dequantizer.forward q = tensorMul q._scale (castTo q._scale.dtype q._data) := by
  simp [Dequantizer.forward, h]

theorem dequantizer_forward_nonfp {q : QTensor} (h : q._qtype.is_floating_point = false) :
    Dequantizer.forward q = tensorMul q._scale q._data := by
  simp [Dequantizer.forward, h]

theorem mapQTensorsList_eq_map (f : QTensor → Tensor) (xs : List Arg) :
    mapQTensorsList f xs = xs.map (mapQTensors f) := by
  induction xs with
  | nil => rfl
  | cons a as ih => simp [mapQTensorsList, ih]

/-! ### The claims -/

/-- C1: for every base tensor, qtype and resolved scale, `Quantizer.forward`
computes `data = base / scale` element-wise with broadcasting, rounds to the
nearest integer when the qtype is not floating point, clamps into
`[info.min, info.max]` with `info = dtype_info(qtype.dtype)`, casts to the
storage dtype, and returns the `QTensor` constructed from
`(qtype, data, scale)`; an unspecified scale is first resolved as the scalar
absmax scale of the base. -/
theorem c1_quantizer_forward_transform (base : Tensor) (qt : qtype) (scale : Tensor)
    (idx : List ℕ)
    (hval : scale.ndim = 0 ∨ ((tsqueeze scale).ndim ≤ 1 ∧ scale.ndim = base.ndim))
    (hidx : idxOk idx (broadcastShape base.shape scale.shape) = true) :
    Quantizer.forward base qt none = quantizeCore qt base (absmax_scale base qt) ∧
    Quantizer.forward base qt (some scale) = quantizeCore qt base scale ∧
    quantizeCore qt base scale =
      QTensor.make qt
        (castTo qt.dtype (tensorClamp ((dtype_info qt.dtype).min : ℚ)
          ((dtype_info qt.dtype).max : ℚ)
          (if qt.is_floating_point = false then tensorRound (tensorDiv base scale)
           else tensorDiv base scale))) scale ∧
    (castTo qt.dtype (tensorClamp ((dtype_info qt.dtype).min : ℚ)
        ((dtype_info qt.dtype).max : ℚ)
        (if qt.is_floating_point = false then tensorRound (tensorDiv base scale)
         else tensorDiv base scale))).el idx =
      castVal qt.dtype (clampQ ((dtype_info qt.dtype).min : ℚ)
        ((dtype_info qt.dtype).max : ℚ)
        (if qt.is_floating_point = false
         then ((roundHalfEven (base.bel idx / scale.bel idx) : ℤ) : ℚ)
         else base.bel idx / scale.bel idx)) := by
  refine ⟨rfl, ?_, rfl, el_quantizedData qt _ _ base scale hidx⟩
  unfold Quantizer.forward
  dsimp only
  rcases hval with h0 | ⟨hsq, hnd⟩
  · rw [if_neg (by omega)]
  · by_cases h0 : 0 < scale.ndim
    · rw [if_pos h0, if_neg (by omega), if_neg (by omega)]
    · rw [if_neg h0]

/-- Witness for C1 at a concrete base, qtype, scalar scale and index. -/
theorem c1_witness :
    Quantizer.forward ⟨[3], [-5, 0, 5], 0, Dtype.float32⟩ qint8
        (some ⟨[], [1 / 2], 0, Dtype.float32⟩) =
      quantizeCore qint8 ⟨[3], [-5, 0, 5], 0, Dtype.float32⟩
        ⟨[], [1 / 2], 0, Dtype.float32⟩ :=
  (c1_quantizer_forward_transform ⟨[3], [-5, 0, 5], 0, Dtype.float32⟩ qint8
    ⟨[], [1 / 2], 0, Dtype.float32⟩ [1] (Or.inl rfl) (by decide)).2.1

/-- C3: the gradient propagated through quantize→dequantize equals the
upstream gradient exactly: `Quantizer.backward` returns `gO` unchanged for
the base with `None` for qtype and scale, and `Dequantizer.backward`
returns `gO` unchanged (straight-through estimator). -/
theorem c3_gradient_identity (gO : Tensor) :
    Quantizer.backward (Dequantizer.backward gO) = (gO, none, none) ∧
    Dequantizer.backward gO = gO ∧
    (Quantizer.backward gO).1 = gO ∧
    (Quantizer.backward gO).2.1 = none ∧
    (Quantizer.backward gO).2.2 = none :=
  ⟨rfl, rfl, rfl, rfl, rfl⟩

/-- C5: invalid inputs are rejected eagerly: a scale whose squeeze has rank
> 1 raises the multi-axis error (in `Quantizer.forward` and in `QTensor`
construction), a non-scalar scale whose rank differs from the base/data
rank raises the not-broadcastable error, and mismatched devices fail the
device assertion at construction. -/
theorem c5_eager_rejection (base data scale : Tensor) (qt : qtype) :
    (0 < scale.ndim → 1 < (tsqueeze scale).ndim →
      Quantizer.forward base qt (some scale) =
        .error "Quantizing along multiple axis is not supported" ∧
      (data.device = scale.device →
        QTensor.make qt data scale =
          .error "QTensor cannot be quantized along multiple axis.")) ∧
    (0 < scale.ndim → (tsqueeze scale).ndim ≤ 1 → scale.ndim ≠ base.ndim →
      Quantizer.forward base qt (some scale) =
        .error "When quantizing per-axis, the scale must be broadcastable to the base (Tip: try to add missing dims of length zero).") ∧
    (0 < scale.ndim → (tsqueeze scale).ndim ≤ 1 → scale.ndim ≠ data.ndim →
      data.device = scale.device →
      QTensor.make qt data scale =
        .error "The QTensor scale must be broadcastable to the base (Tip: try to add missing dims of length zero).") ∧
    (data.device ≠ scale.device →
      QTensor.make qt data scale = .error "assert data.device == scale.device") := by
  refine ⟨?_, ?_, ?_, ?_⟩
  · intro hnd hsq
    constructor
    · unfold Quantizer.forward
      dsimp only
      rw [if_pos hnd, if_pos hsq]
    · intro hdev
      unfold QTensor.make
      rw [if_neg (by simp [hdev]), if_pos hnd, if_pos hsq]
  · intro hnd hsq hne
    unfold Quantizer.forward
    dsimp only
    rw [if_pos hnd, if_neg (by omega), if_pos hne]
  · intro hnd hsq hne hdev
    unfold QTensor.make
    rw [if_neg (by simp [hdev]), if_pos hnd, if_neg (by omega), if_pos hne]
  · intro hdev
    unfold QTensor.make
    rw [if_pos hdev]

/-- Witness for C5: the three rejection cases at concrete inputs. -/
theorem c5_witness :
    Quantizer.forward (⟨[2, 2], [1, 1, 1, 1], 0, Dtype.float32⟩ : Tensor) qint8
        (some ⟨[2, 2], [2, 3, 4, 5], 0, Dtype.float32⟩) =
      .error "Quantizing along multiple axis is not supported" ∧
    Quantizer.forward (⟨[2, 2], [1, 1, 1, 1], 0, Dtype.float32⟩ : Tensor) qint8
        (some ⟨[2], [2, 2], 0, Dtype.float32⟩) =
      .error "When quantizing per-axis, the scale must be broadcastable to the base (Tip: try to add missing dims of length zero)." ∧
    QTensor.make qint8 ⟨[2], [1, 1], 0, Dtype.float32⟩ ⟨[2], [2, 2], 1, Dtype.float32⟩ =
      .error "assert data.device == scale.device" :=
  ⟨((c5_eager_rejection ⟨[2, 2], [1, 1, 1, 1], 0, Dtype.float32⟩
      ⟨[2, 2], [1, 1, 1, 1], 0, Dtype.float32⟩
      ⟨[2, 2], [2, 3, 4, 5], 0, Dtype.float32⟩ qint8).1 (by decide) (by decide)).1,
   (c5_eager_rejection ⟨[2, 2], [1, 1, 1, 1], 0, Dtype.float32⟩
      ⟨[2, 2], [1, 1, 1, 1], 0, Dtype.float32⟩
      ⟨[2], [2, 2], 0, Dtype.float32⟩ qint8).2.1 (by decide) (by decide) (by decide),
   (c5_eager_rejection ⟨[2], [1, 1], 0, Dtype.float32⟩ ⟨[2], [1, 1], 0, Dtype.float32⟩
      ⟨[2], [2, 2], 1, Dtype.float32⟩ qint8).2.2.2 (by decide)⟩

/-- C6: `Dequantizer.forward` returns `scale * data.to(scale.dtype)` when
the qtype is floating point (explicit upcast before the multiply) and
`scale * data` otherwise, for every `QTensor`, with no shape-compatibility
validation; element-wise the result is the product of the broadcast scale
and data elements. -/
theorem c6_dequantizer_forward (q : QTensor) (idx : List ℕ) :
    (q._qtype.is_floating_point = true →
      Dequantizer.forward q = tensorMul q._scale (castTo q._scale.dtype q._data)) ∧
    (q._qtype.is_floating_point = false →
      Dequantizer.forward q = tensorMul q._scale q._data) ∧
    (q._qtype.is_floating_point = true →
      idxOk idx (broadcastShape q._scale.shape q._data.shape) = true →
      (Dequantizer.forward q).el idx =
        q._scale.bel idx * (castTo q._scale.dtype q._data).bel idx) ∧
    (q._qtype.is_floating_point = false →
      idxOk idx (broadcastShape q._scale.shape q._data.shape) = true →
      (Dequantizer.forward q).el idx = q._scale.bel idx * q._data.bel idx) := by
  refine ⟨fun h => dequantizer_forward_fp h, fun h => dequantizer_forward_nonfp h,
    fun h hidx => ?_, fun h hidx => ?_⟩
  · rw [dequantizer_forward_fp h]
    exact el_tensorMul _ _ hidx
  · rw [dequantizer_forward_nonfp h]
    exact el_tensorMul _ _ hidx

/-- Witness for C6: both dequantization branches at concrete `QTensor`s. -/
theorem c6_witness :
    Dequantizer.forward ⟨qfloat8, none, ⟨[2], [3, 4], 0, Dtype.float8⟩,
        ⟨[], [2], 0, Dtype.float32⟩⟩ =
      tensorMul ⟨[], [2], 0, Dtype.float32⟩
        (castTo Dtype.float32 ⟨[2], [3, 4], 0, Dtype.float8⟩) ∧
    Dequantizer.forward ⟨qint8, none, ⟨[2], [3, 4], 0, Dtype.int8⟩,
        ⟨[], [2], 0, Dtype.float32⟩⟩ =
      tensorMul ⟨[], [2], 0, Dtype.float32⟩ ⟨[2], [3, 4], 0, Dtype.int8⟩ :=
  ⟨(c6_dequantizer_forward ⟨qfloat8, none, ⟨[2], [3, 4], 0, Dtype.float8⟩,
      ⟨[], [2], 0, Dtype.float32⟩⟩ [0]).1 rfl,
   (c6_dequantizer_forward ⟨qint8, none, ⟨[2], [3, 4], 0, Dtype.int8⟩,
      ⟨[], [2], 0, Dtype.float32⟩⟩ [0]).2.1 rfl⟩

/-- C8: `qfallback` replaces every `QTensor` anywhere in the positional and
keyword argument trees with its dequantized tensor, leaves every other
argument unchanged, and invokes the callable on the transformed arguments,
returning its result. -/
theorem c8_qfallback {R : Type} (callable : List Arg → List (String × Arg) → R)
    (args : List Arg) (kwargs : List (String × Arg)) :
    qfallback callable args kwargs =
      callable (args.map (mapQTensors QTensor.dequantize))
        (kwargs.map (fun p => (p.1, mapQTensors QTensor.dequantize p.2))) ∧
    (∀ q : QTensor, mapQTensors QTensor.dequantize (Arg.q q) = Arg.t q.dequantize) ∧
    (∀ x : Tensor, mapQTensors QTensor.dequantize (Arg.t x) = Arg.t x) ∧
    (∀ n : ℕ, mapQTensors QTensor.dequantize (Arg.other n) = Arg.other n) ∧
    (∀ xs : List Arg, mapQTensors QTensor.dequantize (Arg.list xs) =
      Arg.list (xs.map (mapQTensors QTensor.dequantize))) := by
  refine ⟨rfl, fun q => rfl, fun x => rfl, fun n => rfl, fun xs => ?_⟩
  show Arg.list (mapQTensorsList _ xs) = _
  rw [mapQTensorsList_eq_map]

/-- C10: `__tensor_unflatten__` ignores its expected outer shape and stride
arguments entirely — any two values produce the same reconstruction — and
the expected outer shape is never checked against the data tensor's
shape. -/
theorem c10_unflatten_ignores_outer :
    (∀ (inner : List (String × Tensor)) (meta : List (String × qtype))
      (os1 ost1 os2 ost2 : List ℕ),
      QTensor.tensor_unflatten inner meta os1 ost1 =
        QTensor.tensor_unflatten inner meta os2 ost2) ∧
    (∃ (inner : List (String × Tensor)) (meta : List (String × qtype))
      (os ost : List ℕ) (q : QTensor),
      QTensor.tensor_unflatten inner meta os ost = .ok q ∧ q._data.shape ≠ os) := by
  refine ⟨fun inner meta os1 ost1 os2 ost2 => rfl,
    ⟨[("_data", ⟨[2], [1, 2], 0, Dtype.int8⟩), ("_scale", ⟨[], [3], 0, Dtype.float32⟩)],
      [("qtype", qint8)], [7], [],
      ⟨qint8, none, ⟨[2], [1, 2], 0, Dtype.int8⟩, ⟨[], [3], 0, Dtype.float32⟩⟩,
      rfl, by decide⟩⟩

/-- C4: when constructing a `QTensor` with a validated non-scalar scale, the
unique non-unit dimension becomes the axis; if every dimension has size 1
the scale is squeezed to a 0-rank scalar and the axis is `none`; and an
axis equal to `rank - 1` is normalized to the sentinel `-1`. -/
theorem c4_axis_resolution (qt : qtype) (data scale : Tensor) (q : QTensor)
    (hnd : 0 < scale.ndim)
    (h : QTensor.make qt data scale = .ok q) :
    ((∀ x ∈ scale.shape, x = 1) →
      q._axis = none ∧ q._scale = tsqueeze scale ∧ q._scale.ndim = 0) ∧
    (∀ i : ℕ, i < scale.ndim → scale.shape.getD i 1 ≠ 1 →
      (∀ j : ℕ, j < scale.ndim → scale.shape.getD j 1 ≠ 1 → j = i) →
      q._scale = scale ∧
        q._axis = some (if i = scale.ndim - 1 then (-1 : ℤ) else (i : ℤ))) := by
  rw [make_ok_iff] at h
  obtain ⟨hdev, hc⟩ := h
  rcases hc with ⟨h0, rfl⟩ | ⟨hnd', hsq, hbr, hc⟩
  · omega
  constructor
  · intro hall
    rcases hc with ⟨hlnu, rfl⟩ | ⟨i, hlnu, hc⟩
    · refine ⟨rfl, rfl, ?_⟩
      show (scale.shape.filter (fun n => n ≠ 1)).length = 0
      rw [filter_ne_one_nil hall]
      rfl
    · exfalso
      rw [lastNonUnit_eq_aux] at hlnu
      have hs := lnuAux_some hlnu
      exact hs.2 (getD_one_of_all hall i hs.1)
  · intro i hi hne huniq
    rcases hc with ⟨hlnu, rfl⟩ | ⟨i', hlnu, hc⟩
    · exfalso
      rw [lastNonUnit_eq_aux] at hlnu
      exact hne (lnuAux_none hlnu i hi)
    · rw [lastNonUnit_eq_aux] at hlnu
      have hs := lnuAux_some hlnu
      have hi' : i' = i := huniq i' hs.1 hs.2
      subst hi'
      rcases hc with ⟨heq, rfl⟩ | ⟨hneq, rfl⟩
      · exact ⟨rfl, by rw [if_pos heq]⟩
      · exact ⟨rfl, by rw [if_neg hneq]⟩

/-- Witness for C4: a `(1, 3)` scale on rank-2 data resolves to the last
axis and is normalized to `-1`. -/
theorem c4_witness :
    (⟨qint8, some (-1), ⟨[2, 3], [0, 0, 0, 0, 0, 0], 0, Dtype.float32⟩,
        ⟨[1, 3], [5, 6, 7], 0, Dtype.float32⟩⟩ : QTensor)._scale =
      ⟨[1, 3], [5, 6, 7], 0, Dtype.float32⟩ ∧
    (⟨qint8, some (-1), ⟨[2, 3], [0, 0, 0, 0, 0, 0], 0, Dtype.float32⟩,
        ⟨[1, 3], [5, 6, 7], 0, Dtype.float32⟩⟩ : QTensor)._axis =
      some (if 1 = (⟨[1, 3], [5, 6, 7], 0, Dtype.float32⟩ : Tensor).ndim - 1
        then (-1 : ℤ) else (1 : ℤ)) :=
  (c4_axis_resolution qint8 ⟨[2, 3], [0, 0, 0, 0, 0, 0], 0, Dtype.float32⟩
    ⟨[1, 3], [5, 6, 7], 0, Dtype.float32⟩ _ (by decide) rfl).2 1 (by decide)
    (by decide) (by decide)

/-- C7: for every successfully constructed `QTensor`, unflattening the
flattened representation rebuilds an equal `QTensor`; flattening yields
exactly two inner tensors and one metadata entry, and unflattening fails
whenever the inner mapping does not have exactly two entries or the
metadata does not have exactly one entry. -/
theorem c7_flatten_unflatten (qt : qtype) (data scale : Tensor) (q : QTensor)
    (h : QTensor.make qt data scale = .ok q) :
    q.tensor_flatten.1.length = 2 ∧
    q.tensor_flatten.2.length = 1 ∧
    (∀ os ost : List ℕ,
      QTensor.tensor_unflatten q.tensor_flatten.1 q.tensor_flatten.2 os ost = .ok q) ∧
    (∀ (inner : List (String × Tensor)) (meta : List (String × Quanto.qtype))
      (os ost : List ℕ), inner.length ≠ 2 ∨ meta.length ≠ 1 →
      ∀ q' : QTensor, QTensor.tensor_unflatten inner meta os ost ≠ .ok q') := by
  refine ⟨rfl, rfl, ?_, ?_⟩
  · intro os ost
    show QTensor.tensor_unflatten [("_data", q._data), ("_scale", q._scale)]
        [("qtype", q._qtype)] os ost = .ok q
    show QTensor.make q._qtype q._data q._scale = .ok q
    exact make_idem h
  · rintro inner meta os ost hbad q'
    unfold QTensor.tensor_unflatten
    rcases hbad with h2 | h1
    · rw [if_pos h2]
      simp
    · by_cases h2 : inner.length ≠ 2
      · rw [if_pos h2]
        simp
      · rw [if_neg h2, if_pos h1]
        simp

/-- Witness for C7: round trip at a concrete `QTensor`. -/
theorem c7_witness :
    QTensor.tensor_unflatten
        (QTensor.tensor_flatten ⟨qint8, none, ⟨[2], [1, 2], 0, Dtype.int8⟩,
          ⟨[], [3], 0, Dtype.float32⟩⟩).1
        (QTensor.tensor_flatten ⟨qint8, none, ⟨[2], [1, 2], 0, Dtype.int8⟩,
          ⟨[], [3], 0, Dtype.float32⟩⟩).2 [2] [1] =
      .ok ⟨qint8, none, ⟨[2], [1, 2], 0, Dtype.int8⟩, ⟨[], [3], 0, Dtype.float32⟩⟩ :=
  (c7_flatten_unflatten qint8 ⟨[2], [1, 2], 0, Dtype.int8⟩
    ⟨[], [3], 0, Dtype.float32⟩ _ rfl).2.2.1 [2] [1]

/-- C9: invariant of every successful construction — the stored axis is
`none` (with a 0-rank stored scale), the sentinel `-1`, or a nonnegative
index at most `data.rank - 2`; a nonnegative axis never equals
`data.rank - 1`; and a non-`none` axis implies the stored scale has the
data's rank with exactly one non-unit dimension. -/
theorem c9_construction_invariant (qt : qtype) (data scale : Tensor) (q : QTensor)
    (h : QTensor.make qt data scale = .ok q) :
    (q._axis = none → q._scale.ndim = 0) ∧
    (∀ i : ℤ, q._axis = some i → i = -1 ∨ (0 ≤ i ∧ i ≤ (q._data.ndim : ℤ) - 2)) ∧
    (∀ i : ℤ, q._axis = some i → 0 ≤ i → i ≠ (q._data.ndim : ℤ) - 1) ∧
    (q._axis ≠ none →
      q._scale.ndim = q._data.ndim ∧
        (q._scale.shape.filter (fun n => n ≠ 1)).length = 1) := by
  rw [make_ok_iff] at h
  obtain ⟨hdev, hc⟩ := h
  rcases hc with ⟨h0, rfl⟩ | ⟨hnd, hsq, hbr, hc⟩
  · refine ⟨fun _ => h0, ?_, ?_, ?_⟩
    · intro i hi
      exact absurd hi (by simp)
    · intro i hi
      exact absurd hi (by simp)
    · intro hne
      exact absurd rfl hne
  · rcases hc with ⟨hlnu, rfl⟩ | ⟨i, hlnu, hc⟩
    · rw [lastNonUnit_eq_aux] at hlnu
      have hall : ∀ x ∈ scale.shape, x = 1 :=
        all_one_getD fun j hj => lnuAux_none hlnu j hj
      have hnil : (tsqueeze scale).ndim = 0 := by
        show (scale.shape.filter (fun n => n ≠ 1)).length = 0
        rw [filter_ne_one_nil hall]
        rfl
      refine ⟨fun _ => hnil, ?_, ?_, ?_⟩
      · intro i hi
        exact absurd hi (by simp)
      · intro i hi
        exact absurd hi (by simp)
      · intro hne
        exact absurd rfl hne
    · rw [lastNonUnit_eq_aux] at hlnu
      have hs := lnuAux_some hlnu
      have hfilter1 : (scale.shape.filter (fun n => n ≠ 1)).length = 1 := by
        have hle : (scale.shape.filter (fun n => n ≠ 1)).length ≤ 1 := hsq
        have hmem : scale.shape.getD i 1 ∈ scale.shape.filter (fun n => n ≠ 1) := by
          rw [List.getD_eq_getElem _ _ hs.1]
          apply List.mem_filter.mpr
          refine ⟨List.getElem_mem _, ?_⟩
          have := hs.2
          rw [List.getD_eq_getElem _ _ hs.1] at this
          simpa using this
        have hpos : 0 < (scale.shape.filter (fun n => n ≠ 1)).length :=
          List.length_pos.mpr (List.ne_nil_of_mem hmem)
        omega
      have hilt : i < scale.ndim := hs.1
      rcases hc with ⟨hi, rfl⟩ | ⟨hi, rfl⟩
      · refine ⟨fun hno => absurd hno (by simp), ?_, ?_, fun _ => ⟨hbr, hfilter1⟩⟩
        · intro j hj
          have hj' : j = -1 := by
            have := hj
            simp at this
            omega
          exact Or.inl hj'
        · intro j hj hj0
          have hj' : j = -1 := by
            have := hj
            simp at this
            omega
          omega
      · refine ⟨fun hno => absurd hno (by simp), ?_, ?_, fun _ => ⟨hbr, hfilter1⟩⟩
        · intro j hj
          have hj' : j = (i : ℤ) := by
            have := hj
            simpa using this.symm
          subst hj'
          have hlen : i < scale.shape.length := hs.1
          have hbr' : scale.shape.length = data.shape.length := hbr
          have hi2 : ¬i = scale.shape.length - 1 := hi
          dsimp only
          refine Or.inr ⟨by exact_mod_cast Int.ofNat_nonneg i, ?_⟩
          show (i : ℤ) ≤ (data.shape.length : ℤ) - 2
          omega
        · intro j hj hj0
          have hj' : j = (i : ℤ) := by
            have := hj
            simpa using this.symm
          subst hj'
          have hlen : i < scale.shape.length := hs.1
          have hbr' : scale.shape.length = data.shape.length := hbr
          have hi2 : ¬i = scale.shape.length - 1 := hi
          dsimp only
          show (i : ℤ) ≠ (data.shape.length : ℤ) - 1
          omega

/-- Witness for C9: the invariant at a concrete construction with a
last-axis scale. -/
theorem c9_witness :
    (⟨qint8, some (-1), ⟨[2, 3], [0, 0, 0, 0, 0, 0], 0, Dtype.float32⟩,
        ⟨[1, 3], [5, 6, 7], 0, Dtype.float32⟩⟩ : QTensor)._scale.ndim =
      (⟨qint8, some (-1), ⟨[2, 3], [0, 0, 0, 0, 0, 0], 0, Dtype.float32⟩,
        ⟨[1, 3], [5, 6, 7], 0, Dtype.float32⟩⟩ : QTensor)._data.ndim ∧
    ((⟨qint8, some (-1), ⟨[2, 3], [0, 0, 0, 0, 0, 0], 0, Dtype.float32⟩,
        ⟨[1, 3], [5, 6, 7], 0, Dtype.float32⟩⟩ : QTensor)._scale.shape.filter
      (fun n => n ≠ 1)).length = 1 :=
  (c9_construction_invariant qint8 ⟨[2, 3], [0, 0, 0, 0, 0, 0], 0, Dtype.float32⟩
    ⟨[1, 3], [5, 6, 7], 0, Dtype.float32⟩ _ rfl).2.2.2 (by decide)

/-- C2: for every tensor and integer qtype, each element of
`dequantize(quantize(t, qtype))` differs from the corresponding element of
`t` by at most `scale / 2`, where `scale` is the scalar absmax scale
resolved during quantization; no element is lost to overflow or
wraparound. -/
theorem c2_round_trip_bound (t : Tensor) (qt : qtype) (q : QTensor) (idx : List ℕ)
    (hfp : qt.is_floating_point = false) (hwf : t.wf)
    (hq : Quantizer.forward t qt none = .ok q)
    (hidx : idxOk idx t.shape = true) :
    |(QTensor.dequantize q).el idx - t.el idx| ≤ (absmax_scale t qt).el [] / 2 := by
  rw [forward_none, if_pos hfp] at hq
  have hq' : q = ⟨qt, none,
      castTo qt.dtype (tensorClamp ((dtype_info qt.dtype).min : ℚ)
        ((dtype_info qt.dtype).max : ℚ)
        (tensorRound (tensorDiv t (absmax_scale t qt)))),
      absmax_scale t qt⟩ := by
    injection hq with h
    exact h.symm
  subst hq'
  have hfp' : ((⟨qt, none,
      castTo qt.dtype (tensorClamp ((dtype_info qt.dtype).min : ℚ)
        ((dtype_info qt.dtype).max : ℚ)
        (tensorRound (tensorDiv t (absmax_scale t qt)))),
      absmax_scale t qt⟩ : QTensor))._qtype.is_floating_point = false := hfp
  show |(Dequantizer.forward _).el idx - t.el idx| ≤ _
  rw [dequantizer_forward_nonfp hfp']
  have hDshape : (castTo qt.dtype (tensorClamp ((dtype_info qt.dtype).min : ℚ)
      ((dtype_info qt.dtype).max : ℚ)
      (tensorRound (tensorDiv t (absmax_scale t qt))))).shape = t.shape :=
    broadcastShape_nil_right t.shape
  have hidxdiv : idxOk idx (broadcastShape t.shape (absmax_scale t qt).shape) = true := by
    have he : broadcastShape t.shape (absmax_scale t qt).shape = t.shape :=
      broadcastShape_nil_right t.shape
    rw [he]
    exact hidx
  have hidxmul : idxOk idx (broadcastShape (absmax_scale t qt).shape
      (castTo qt.dtype (tensorClamp ((dtype_info qt.dtype).min : ℚ)
        ((dtype_info qt.dtype).max : ℚ)
        (tensorRound (tensorDiv t (absmax_scale t qt))))).shape) = true := by
    have he : broadcastShape (absmax_scale t qt).shape
        (castTo qt.dtype (tensorClamp ((dtype_info qt.dtype).min : ℚ)
          ((dtype_info qt.dtype).max : ℚ)
          (tensorRound (tensorDiv t (absmax_scale t qt))))).shape = t.shape := by
      have h1 : broadcastShape []
          (castTo qt.dtype (tensorClamp ((dtype_info qt.dtype).min : ℚ)
            ((dtype_info qt.dtype).max : ℚ)
            (tensorRound (tensorDiv t (absmax_scale t qt))))).shape =
          (castTo qt.dtype (tensorClamp ((dtype_info qt.dtype).min : ℚ)
            ((dtype_info qt.dtype).max : ℚ)
            (tensorRound (tensorDiv t (absmax_scale t qt))))).shape :=
        broadcastShape_nil_left _
      rw [show broadcastShape (absmax_scale t qt).shape
          (castTo qt.dtype (tensorClamp ((dtype_info qt.dtype).min : ℚ)
            ((dtype_info qt.dtype).max : ℚ)
            (tensorRound (tensorDiv t (absmax_scale t qt))))).shape =
          broadcastShape []
          (castTo qt.dtype (tensorClamp ((dtype_info qt.dtype).min : ℚ)
            ((dtype_info qt.dtype).max : ℚ)
            (tensorRound (tensorDiv t (absmax_scale t qt))))).shape from rfl, h1, hDshape]
    rw [he]
    exact hidx
  rw [el_tensorMul _ _ hidxmul]
  have hidxD : idxOk idx (castTo qt.dtype (tensorClamp ((dtype_info qt.dtype).min : ℚ)
      ((dtype_info qt.dtype).max : ℚ)
      (tensorRound (tensorDiv t (absmax_scale t qt))))).shape = true := by
    rw [hDshape]
    exact hidx
  rw [show (castTo qt.dtype (tensorClamp ((dtype_info qt.dtype).min : ℚ)
      ((dtype_info qt.dtype).max : ℚ)
      (tensorRound (tensorDiv t (absmax_scale t qt))))).bel idx =
      (castTo qt.dtype (tensorClamp ((dtype_info qt.dtype).min : ℚ)
      ((dtype_info qt.dtype).max : ℚ)
      (tensorRound (tensorDiv t (absmax_scale t qt))))).el idx from bel_self hidxD]
  have hwfdiv : (tensorDiv t (absmax_scale t qt)).wf := Tensor.ofFn_wf _ _ _ _
  have hwfr : (tensorRound (tensorDiv t (absmax_scale t qt))).wf := wf_mapVals _ hwfdiv
  have hwfc : (tensorClamp ((dtype_info qt.dtype).min : ℚ) ((dtype_info qt.dtype).max : ℚ)
      (tensorRound (tensorDiv t (absmax_scale t qt)))).wf := wf_mapVals _ hwfr
  rw [el_castTo _ hidxdiv hwfc, el_tensorClamp _ _ hidxdiv hwfr,
    el_tensorRound hidxdiv hwfdiv, el_tensorDiv _ _ hidxdiv, bel_self hidx,
    bel_scalar (show (absmax_scale t qt).shape = [] from rfl)]
  have hlt : flatIndex t.shape idx < t.vals.length := by
    rw [hwf]
    exact flatIndex_lt hidx
  have hmem : t.el idx ∈ t.vals := by
    unfold Tensor.el
    rw [List.getD_eq_getElem _ _ hlt]
    exact List.getElem_mem _
  have habs : |t.el idx| ≤ absmaxList t.vals := abs_le_absmaxList hmem
  have heps : (0 : ℚ) < scale_eps := by norm_num [scale_eps]
  have hcore := quantize_err_core qt.dtype (t.el idx) (absmaxList t.vals) scale_eps habs heps
  exact hcore

/-- Witness for C2: the bound at the spec's own example
`base = [-5, 0, 5]`, `qtype = qint8`. -/
theorem c2_witness :
    |(QTensor.dequantize ⟨qint8, none,
        castTo qint8.dtype (tensorClamp ((dtype_info qint8.dtype).min : ℚ)
          ((dtype_info qint8.dtype).max : ℚ)
          (if qint8.is_floating_point = false
           then tensorRound (tensorDiv ⟨[3], [-5, 0, 5], 0, Dtype.float32⟩
             (absmax_scale ⟨[3], [-5, 0, 5], 0, Dtype.float32⟩ qint8))
           else tensorDiv ⟨[3], [-5, 0, 5], 0, Dtype.float32⟩
             (absmax_scale ⟨[3], [-5, 0, 5], 0, Dtype.float32⟩ qint8))),
        absmax_scale ⟨[3], [-5, 0, 5], 0, Dtype.float32⟩ qint8⟩).el [0] -
        (⟨[3], [-5, 0, 5], 0, Dtype.float32⟩ : Tensor).el [0]| ≤
      (absmax_scale ⟨[3], [-5, 0, 5], 0, Dtype.float32⟩ qint8).el [] / 2 :=
  c2_round_trip_bound ⟨[3], [-5, 0, 5], 0, Dtype.float32⟩ qint8 _ [0] rfl (by decide)
    (forward_none ⟨[3], [-5, 0, 5], 0, Dtype.float32⟩ qint8) (by decide)

end Quanto
